import Mathlib

/-!
Verification of the IAM decision engine (TypeScript sources under src/).

The development shallowly embeds the engine code:
* `src/types/entities.ts`   — entity model (User, Role, Policy, Statement, Condition)
* `src/core/evaluator.ts`   — condition operators and the operator registry
* `src/core/defaultEvaluator.ts` — the default policy evaluator
* `src/core/iam.ts`         — the `IAM.can` engine entry point with hooks
* the in-memory storage adapter (`InMemoryAdapter`)

JavaScript values appearing in contexts and condition comparands are modelled
by `JSValue`.  Strict equality on objects (arrays, RegExp instances) is
reference identity in JavaScript; the embedding has no heap, so comparisons of
composite values are modelled as false (distinct literals are never the same
reference).  The host regular-expression engine is an external platform
facility and is abstracted by `RegexSem` (pattern validity and matching);
every theorem quantifies over it.  Asynchronous behaviour matters in exactly
one place: a hook-wrapped operator returns a pending Promise object, which is
truthy regardless of its eventual value; `OpResult.promise` models that.
-/

/-- Semantics of the host regex engine: which pattern source strings compile,
and whether a compiled pattern matches a given string. -/
structure RegexSem where
  valid : String → Bool
  test : String → String → Bool

/-- JavaScript values as they occur in request contexts and condition
comparands. -/
inductive JSValue where
  | str (s : String)
  | num (n : Int)
  | bool (b : Bool)
  | undefined
  | null
  | arr (elems : List JSValue)
  | regexp (pattern : String)

/-- Strict equality `===` of `src/core/evaluator.ts` operators: structural on
primitives, reference identity (modelled false) on composites. -/
def jsEq : JSValue → JSValue → Bool
  | .str a, .str b => a == b
  | .num a, .num b => a == b
  | .bool a, .bool b => a == b
  | .undefined, .undefined => true
  | .null, .null => true
  | _, _ => false

def JSValue.isNum : JSValue → Bool
  | .num _ => true
  | _ => false

def JSValue.isStr : JSValue → Bool
  | .str _ => true
  | _ => false

def JSValue.isArr : JSValue → Bool
  | .arr _ => true
  | _ => false

mutual

/-- JavaScript `String(value)` conversion, as used by the `contains`
operator. -/
def jsToString : JSValue → String
  | .str s => s
  | .num n => toString n
  | .bool true => "true"
  | .bool false => "false"
  | .undefined => "undefined"
  | .null => "null"
  | .regexp p => "/" ++ p ++ "/"
  | .arr l => String.intercalate "," (jsToStringElems l)

/-- Array elements under `Array.prototype.toString`: null and undefined
become empty strings. -/
def jsToStringElems : List JSValue → List String
  | [] => []
  | .null :: vs => "" :: jsToStringElems vs
  | .undefined :: vs => "" :: jsToStringElems vs
  | v :: vs => jsToString v :: jsToStringElems vs

end

/-- Tests whether `sub` occurs at the head of `s` (character lists). -/
def listStartsWith : List Char → List Char → Bool
  | [], _ => true
  | _ :: _, [] => false
  | a :: as, b :: bs => a == b && listStartsWith as bs

/-- Tests whether `sub` occurs anywhere inside `s` (character lists). -/
def listContainsSub (sub : List Char) : List Char → Bool
  | [] => listStartsWith sub []
  | c :: rest => listStartsWith sub (c :: rest) || listContainsSub sub rest

/-- JavaScript `String.prototype.includes` (substring occurrence test). -/
def jsStrIncludes (s sub : String) : Bool :=
  listContainsSub sub.data s.data

/-- Request context: a JavaScript object, keys to values. -/
def Ctx := List (String × JSValue)

/-- Context lookup; an absent key reads as `undefined`. -/
def ctxGet (ctx : Ctx) (k : String) : JSValue :=
  match List.find? (fun p => p.1 == k) ctx with
  | some p => p.2
  | none => .undefined

/-! Entity model, from `src/types/entities.ts`. -/

inductive Effect where
  | allow
  | deny
deriving DecidableEq

structure Condition where
  operator : String
  key : String
  value : JSValue

structure Statement where
  effect : Effect
  actions : List String
  resources : List String
  conditions : Option (List Condition)

structure Policy where
  id : String
  statements : List Statement

structure Role where
  id : String
  policyIds : List String

structure User where
  id : String
  roleIds : List String
  policyIds : List String

/-! Condition operators, from `src/core/evaluator.ts`. -/

/-- Synchronous condition operator `(key, value, context) → boolean`. -/
def OperatorFn := String → JSValue → Ctx → Bool

/-- Result of invoking an operator as the evaluator sees it: a synchronous
boolean, or a pending Promise object (always truthy). -/
inductive OpResult where
  | val (b : Bool)
  | promise

/-- JavaScript truthiness of an operator invocation result. -/
def OpResult.truthy : OpResult → Bool
  | .val b => b
  | .promise => true

/-- Default operator table `defaultConditionOperators`, embedded per name. -/
def defaultConditionOperators (rs : RegexSem) : String → Option OperatorFn :=
  fun name =>
    match name with
    | "eq" => some fun k v c => jsEq (ctxGet c k) v
    | "ne" => some fun k v c => !(jsEq (ctxGet c k) v)
    | "gt" => some fun k v c =>
        match ctxGet c k, v with
        | .num a, .num b => a > b
        | _, _ => false
    | "lt" => some fun k v c =>
        match ctxGet c k, v with
        | .num a, .num b => a < b
        | _, _ => false
    | "gte" => some fun k v c =>
        match ctxGet c k, v with
        | .num a, .num b => a ≥ b
        | _, _ => false
    | "lte" => some fun k v c =>
        match ctxGet c k, v with
        | .num a, .num b => a ≤ b
        | _, _ => false
    | "in" => some fun k v c =>
        match v with
        | .arr l => l.any (fun e => jsEq e (ctxGet c k))
        | _ => false
    | "contains" => some fun k v c =>
        match ctxGet c k with
        | .str s => jsStrIncludes s (jsToString v)
        | .arr l => l.any (fun e => jsEq e v)
        | _ => false
    | "regex" => some fun k v c =>
        match v with
        | .str pat =>
          if rs.valid pat then
            match ctxGet c k with
            | .str s => rs.test pat s
            | _ => false
          else false
        | .regexp pat =>
          match ctxGet c k with
          | .str s => rs.test pat s
          | _ => false
        | _ => false
    | _ => none

/-- Applies a default operator by name; an unregistered name yields false
(mirrors `op ? op(...) : false`). -/
def applyDefaultOp (rs : RegexSem) (name k : String) (v : JSValue) (ctx : Ctx) : Bool :=
  match defaultConditionOperators rs name with
  | some f => f k v ctx
  | none => false

/-- Registry of custom condition operators (`ConditionOperatorRegistry`).
The backing record is an association list where `register` prepends, so a
later registration under the same name overwrites the earlier one. -/
structure ConditionOperatorRegistry where
  operators : List (String × OperatorFn)

def ConditionOperatorRegistry.register (r : ConditionOperatorRegistry)
    (name : String) (op : OperatorFn) : ConditionOperatorRegistry :=
  ⟨(name, op) :: r.operators⟩

def ConditionOperatorRegistry.get (r : ConditionOperatorRegistry)
    (name : String) : Option OperatorFn :=
  (List.find? (fun p => p.1 == name) r.operators).map (fun p => p.2)

/-! Default policy evaluator, from `src/core/defaultEvaluator.ts`. -/

/-- Operator mapping as the evaluator receives it (`Record<string, op>`);
absent names read as `undefined`. -/
def OpMap := String → Option (String → JSValue → Ctx → OpResult)

/-- Lifts the synchronous default operators into the evaluator operator
type. -/
def liftSync (f : OperatorFn) : String → JSValue → Ctx → OpResult :=
  fun k v c => .val (f k v c)

/-- Condition check of the evaluator: look up the operator, invoke it, use
the truthiness of the result; an absent operator yields false. -/
def condCheck (ops : OpMap) (ctx : Ctx) (cond : Condition) : Bool :=
  match ops cond.operator with
  | some op => (op cond.key cond.value ctx).truthy
  | none => false

/-- Statement match test exactly as in the evaluator loop body. -/
def stmtMatches (ops : OpMap) (action resource : String) (ctx : Ctx)
    (stmt : Statement) : Bool :=
  stmt.actions.contains action && stmt.resources.contains resource &&
    (match stmt.conditions with
     | none => true
     | some cs => cs.all (condCheck ops ctx))

/-- One `map.set(p.id, p)` step of building a JavaScript Map from the policy
list: an existing key keeps its position but takes the new value, a new key
is appended. -/
def insertPolicy (acc : List Policy) (p : Policy) : List Policy :=
  if acc.any (fun q => q.id == p.id) then
    acc.map (fun q => if q.id == p.id then p else q)
  else acc ++ [p]

/-- Deduplication `[...new Map(policies.map(p => [p.id, p])).values()]`:
a JavaScript Map keeps the first insertion position of a key but the last
value stored under it. -/
def dedupPolicies (ps : List Policy) : List Policy :=
  List.foldl insertPolicy [] ps

/-- Policy ids in evaluation order: the first occurrence of each id. -/
def firstOccIds (ps : List Policy) : List String :=
  List.foldl (fun ids p => if ids.contains p.id then ids else ids ++ [p.id]) [] ps

structure Trace where
  checkedPolicies : List String
  reason : String

structure DecisionContext where
  decision : Bool
  trace : Trace
  context : Ctx

/-- Main evaluator loop: iterate policies, record each visited policy id,
return at the first statement whose match test passes. -/
def evalPolicies (ops : OpMap) (action resource : String) (ctx : Ctx) :
    List Policy → List String → DecisionContext
  | [], checked =>
    { decision := false
      trace := { checkedPolicies := checked, reason := "No matching policy" }
      context := ctx }
  | p :: rest, checked =>
    let checked := checked ++ [p.id]
    match p.statements.find? (stmtMatches ops action resource ctx) with
    | some stmt =>
      match stmt.effect with
      | .allow =>
        { decision := true
          trace := { checkedPolicies := checked
                     reason := "Allowed by policy " ++ p.id }
          context := ctx }
      | .deny =>
        { decision := false
          trace := { checkedPolicies := checked
                     reason := "Denied by policy " ++ p.id }
          context := ctx }
    | none => evalPolicies ops action resource ctx rest checked

/-- The default policy evaluator `defaultPolicyEvaluator(logger)` applied to
a request.  The `user` and `roles` arguments are received but unused, as in
the source. -/
def defaultPolicyEvaluator (user : User) (action resource : String)
    (ctx : Ctx) (policies : List Policy) (roles : List Role)
    (ops : OpMap) : DecisionContext :=
  evalPolicies ops action resource ctx (dedupPolicies policies) []

/-! Engine `IAM.can`, from `src/core/iam.ts`, with storage and hooks. -/

/-- Result of an awaited storage method: a resolved value or a rejection
carrying the error message. -/
inductive SResult (α : Type) where
  | ok (a : α)
  | err (msg : String)

/-- Storage collaborator restricted to the two batch methods the engine
calls during evaluation.  `getRoles` may return a list with undefined holes
(`none`), which the `IAMStorage` type permits at runtime. -/
structure Storage where
  getPolicies : List String → SResult (List Policy)
  getRoles : List String → SResult (List (Option Role))

/-- Lookup in a JavaScript Map built from an entity list: the last entry
under a given id wins. -/
def mapGetById (id : String) (get : α → String) (l : List α) : Option α :=
  List.foldl (fun acc q => if get q == id then some q else acc) none l

/-- In-memory storage adapter: batch lookups drop unresolved ids
(`.filter(Boolean)`). -/
def InMemoryAdapter (roles : List Role) (policies : List Policy) : Storage :=
  { getPolicies := fun ids =>
      .ok (ids.filterMap (fun i => mapGetById i Policy.id policies))
    getRoles := fun ids =>
      .ok ((ids.filterMap (fun i => mapGetById i Role.id roles)).map some) }

/-- Behaviour of one optional hook: not supplied, supplied and returning
normally, or supplied and throwing with the given message. -/
inductive HookSpec where
  | absent
  | returns
  | throws (msg : String)

def HookSpec.installed : HookSpec → Bool
  | .absent => false
  | _ => true

def HookSpec.throwsMsg : HookSpec → Option String
  | .throws m => some m
  | _ => none

structure Hooks where
  onBeforeDecision : HookSpec
  onAfterDecision : HookSpec
  onConditionCheck : HookSpec
  onStorageAccess : HookSpec
  onRoleNotFound : HookSpec
  onDecision : HookSpec
  onError : HookSpec

def noHooks : Hooks :=
  ⟨.absent, .absent, .absent, .absent, .absent, .absent, .absent⟩

/-- Observable hook invocations during one `can` call. -/
inductive HookEvent where
  | beforeDecision
  | storageAccess (method : String) (withResult : Bool)
  | roleNotFound (roleId : Option String)
  | decision
  | error
  | afterDecision

def HookEvent.isRoleNotFound : HookEvent → Bool
  | .roleNotFound _ => true
  | _ => false

/-- Invokes one hook: the events it produces and the message it throws, if
any. -/
def hookCall (spec : HookSpec) (ev : HookEvent) : List HookEvent × Option String :=
  match spec with
  | .absent => ([], none)
  | .returns => ([ev], none)
  | .throws m => ([ev], some m)

/-- Invokes `onRoleNotFound` once per missing role id, stopping at the first
throw. -/
def notifyMissing (spec : HookSpec) (rids : List String) :
    List HookEvent × Option String :=
  match rids with
  | [] => ([], none)
  | rid :: rest =>
    match spec with
    | .absent => ([], none)
    | .returns =>
      let (evs, t) := notifyMissing .returns rest
      (HookEvent.roleNotFound (some rid) :: evs, t)
    | .throws m => ([HookEvent.roleNotFound (some rid)], some m)

/-- Operator mapping the engine hands to the evaluator: a fresh copy of the
default table; when `onConditionCheck` is installed every entry is replaced
by an async wrapper, whose synchronous return value is a pending Promise. -/
def engineOperators (rs : RegexSem) (hookOn : Bool) : OpMap :=
  fun name =>
    (defaultConditionOperators rs name).map (fun op =>
      if hookOn then fun _ _ _ => OpResult.promise else liftSync op)

/-- Outcome of one `IAM.can` call: the value the returned promise settles
with (a `DecisionContext`, or a rejection message when the `onError` hook
itself throws), together with the hook invocations observed. -/
structure CanOutcome where
  result : Except String DecisionContext
  events : List HookEvent

/-- The try block of `IAM.can`: hooks, storage access, role-not-found
notifications, evaluator invocation, `onDecision`.  The two initial storage
fetches run under `Promise.all`; they are modelled sequentially
(`getPolicies` then `getRoles`), which preserves every observable the
theorems below speak about. -/
def tryPhase (rs : RegexSem) (stOpt : Option Storage) (hooks : Hooks)
    (user : User) (action resource : String) (ctx : Ctx) :
    Except String DecisionContext × List HookEvent :=
  let (evs, t1) := hookCall hooks.onBeforeDecision .beforeDecision
  match t1 with
  | some m => (.error m, evs)
  | none =>
  match stOpt with
  | none => (.error "No storage adapter configured", evs)
  | some storage =>
  let (e2, t2) := hookCall hooks.onStorageAccess (.storageAccess "getPolicies" false)
  let evs := evs ++ e2
  match t2 with
  | some m => (.error m, evs)
  | none =>
  match storage.getPolicies user.policyIds with
  | .err m => (.error m, evs)
  | .ok userPolicies =>
  let (e3, t3) := hookCall hooks.onStorageAccess (.storageAccess "getPolicies" true)
  let evs := evs ++ e3
  match t3 with
  | some m => (.error m, evs)
  | none =>
  let (e4, t4) := hookCall hooks.onStorageAccess (.storageAccess "getRoles" false)
  let evs := evs ++ e4
  match t4 with
  | some m => (.error m, evs)
  | none =>
  match storage.getRoles user.roleIds with
  | .err m => (.error m, evs)
  | .ok userRoles =>
  let (e5, t5) := hookCall hooks.onStorageAccess (.storageAccess "getRoles" true)
  let evs := evs ++ e5
  match t5 with
  | some m => (.error m, evs)
  | none =>
  let (e6, t6) :=
    if hooks.onRoleNotFound.installed then
      if user.roleIds.isEmpty then
        hookCall hooks.onRoleNotFound (.roleNotFound none)
      else if userRoles.isEmpty then
        notifyMissing hooks.onRoleNotFound user.roleIds
      else if userRoles.any (fun r => r.isNone) then
        notifyMissing hooks.onRoleNotFound
          (user.roleIds.filter (fun rid =>
            !(userRoles.any (fun r =>
              match r with
              | some role => role.id == rid
              | none => false))))
      else ([], none)
    else ([], none)
  let evs := evs ++ e6
  match t6 with
  | some m => (.error m, evs)
  | none =>
  if userRoles.any (fun r => r.isNone) then
    -- `userRoles.flatMap(r => r.policyIds)` raises a TypeError on a hole
    (.error "Cannot read properties of undefined", evs)
  else
  let roles := userRoles.filterMap id
  let rolePolicyIds := (roles.map (fun r => r.policyIds)).foldr (fun a b => a ++ b) []
  let (e7, t7) := hookCall hooks.onStorageAccess (.storageAccess "getPolicies" false)
  let evs := evs ++ e7
  match t7 with
  | some m => (.error m, evs)
  | none =>
  match storage.getPolicies rolePolicyIds with
  | .err m => (.error m, evs)
  | .ok rolePolicies =>
  let (e8, t8) := hookCall hooks.onStorageAccess (.storageAccess "getPolicies" true)
  let evs := evs ++ e8
  match t8 with
  | some m => (.error m, evs)
  | none =>
  let allPolicies := userPolicies ++ rolePolicies
  let ops := engineOperators rs hooks.onConditionCheck.installed
  let d := defaultPolicyEvaluator user action resource ctx allPolicies roles ops
  let (e9, t9) := hookCall hooks.onDecision .decision
  let evs := evs ++ e9
  match t9 with
  | some m => (.error m, evs)
  | none => (.ok d, evs)

/-- The full `IAM.can` call: try block, catch block (deny with the error
message; `onError` may rethrow), and the finally block (`onAfterDecision`,
its errors swallowed). -/
def canCore (rs : RegexSem) (stOpt : Option Storage) (hooks : Hooks)
    (user : User) (action resource : String) (ctxOpt : Option Ctx) :
    CanOutcome :=
  let ctx := ctxOpt.getD []
  let (t, evs) := tryPhase rs stOpt hooks user action resource ctx
  match t with
  | .ok d =>
    let (ef, _) := hookCall hooks.onAfterDecision .afterDecision
    { result := .ok d, events := evs ++ ef }
  | .error m =>
    let (ee, te) := hookCall hooks.onError .error
    let (ef, _) := hookCall hooks.onAfterDecision .afterDecision
    match te with
    | some m2 => { result := .error m2, events := evs ++ ee ++ ef }
    | none =>
      { result := .ok
          { decision := false
            trace := { checkedPolicies := [], reason := m }
            context := ctx }
        events := evs ++ ee ++ ef }

/-! Specification-side definitions and concrete fixtures. -/

/-- Modelled from the claim wording for the match relation: a condition
evaluates true via the operator registry; an unregistered operator name
evaluates false.  Registry operators are boolean-valued. -/
def condEvaluatesTrue (ops : String → Option OperatorFn) (ctx : Ctx)
    (c : Condition) : Bool :=
  match ops c.operator with
  | some op => op c.key c.value ctx
  | none => false

/-- Holds when no installed hook throws. -/
def Hooks.nonThrowing (h : Hooks) : Bool :=
  h.onBeforeDecision.throwsMsg.isNone && h.onAfterDecision.throwsMsg.isNone &&
  h.onConditionCheck.throwsMsg.isNone && h.onStorageAccess.throwsMsg.isNone &&
  h.onRoleNotFound.throwsMsg.isNone && h.onDecision.throwsMsg.isNone &&
  h.onError.throwsMsg.isNone

/-- Storage collaborator whose batch methods always reject with `msg`. -/
def failingStorage (msg : String) : Storage :=
  ⟨fun _ => .err msg, fun _ => .err msg⟩

/-- Policy list the engine assembles with the in-memory adapter
(`allPolicies = [...userPolicies, ...rolePolicies]`): the directly attached
policies in stored order, then the policies of each resolved role in stored
order, unresolved ids dropped by the adapter. -/
def resolvedPolicies (roles : List Role) (policies : List Policy)
    (user : User) : List Policy :=
  user.policyIds.filterMap (fun i => mapGetById i Policy.id policies) ++
    ((((user.roleIds.filterMap (fun i => mapGetById i Role.id roles)).map
        Role.policyIds).foldr (fun a b => a ++ b) []).filterMap
      (fun i => mapGetById i Policy.id policies))

/-- Regex semantics in which nothing compiles and nothing matches; used only
to instantiate witnesses. -/
def rs0 : RegexSem := ⟨fun _ => false, fun _ _ => false⟩

/-- Empty operator mapping. -/
def opsNone : OpMap := fun _ => none

def pW0 : Policy := ⟨"p0", [⟨.allow, ["write"], ["doc:1"], none⟩]⟩

def pW1 : Policy := ⟨"p1", [⟨.allow, ["read"], ["doc:1"], none⟩]⟩

def pW2 : Policy := ⟨"p2", [⟨.deny, ["read"], ["doc:1"], none⟩]⟩

def uW : User := ⟨"u1", [], []⟩

/-- Policy whose single Allow statement is guarded by `eq owner alice`. -/
def pC2 : Policy :=
  ⟨"p1", [⟨.allow, ["read"], ["doc"], some [⟨"eq", "owner", .str "alice"⟩]⟩]⟩

def uC2 : User := ⟨"u", [], ["p1"]⟩

def ctxC2 : Ctx := [("owner", .str "bob")]

/-- Hook set with only `onConditionCheck` installed (returning normally). -/
def hooksCondCheck : Hooks :=
  ⟨.absent, .absent, .returns, .absent, .absent, .absent, .absent⟩

/-- Hook set with only a throwing `onError` installed. -/
def hooksErrThrow : Hooks :=
  ⟨.absent, .absent, .absent, .absent, .absent, .absent, .throws "boom"⟩

/-- Hook set with only `onRoleNotFound` installed (returning normally). -/
def hooksRoleNF : Hooks :=
  ⟨.absent, .absent, .absent, .absent, .returns, .absent, .absent⟩

def roleR1 : Role := ⟨"r1", []⟩

/-- Subject referencing one resolvable role and one missing role. -/
def uPartialRoles : User := ⟨"u", ["r1", "rX"], []⟩

/-! Helper lemmas about the evaluator loop and deduplication. -/

theorem evalPolicies_skip (ops : OpMap) (a r : String) (ctx : Ctx)
    (pre rest : List Policy) (acc : List String)
    (h : ∀ q ∈ pre, q.statements.find? (stmtMatches ops a r ctx) = none) :
    evalPolicies ops a r ctx (pre ++ rest) acc =
      evalPolicies ops a r ctx rest (acc ++ pre.map Policy.id) := by
  induction pre generalizing acc with
  | nil => simp
  | cons q pre ih =>
    have hq := h q (List.mem_cons_self q pre)
    rw [List.cons_append]
    simp only [evalPolicies, hq]
    rw [ih (acc ++ [q.id]) (fun p hp => h p (List.mem_cons_of_mem q hp))]
    simp

theorem evalPolicies_checked_take (ops : OpMap) (a r : String) (ctx : Ctx)
    (ps : List Policy) (acc : List String) :
    ∃ n, (evalPolicies ops a r ctx ps acc).trace.checkedPolicies =
      acc ++ (ps.map Policy.id).take n := by
  induction ps generalizing acc with
  | nil => exact ⟨0, by simp [evalPolicies]⟩
  | cons p ps ih =>
    match hf : p.statements.find? (stmtMatches ops a r ctx) with
    | some stmt =>
      cases hs : stmt.effect
      · exact ⟨1, by simp [evalPolicies, hf, hs]⟩
      · exact ⟨1, by simp [evalPolicies, hf, hs]⟩
    | none =>
      obtain ⟨n, hn⟩ := ih (acc ++ [p.id])
      exact ⟨n + 1, by simp [evalPolicies, hf, hn]⟩

theorem any_id_eq_contains (acc : List Policy) (p : Policy) :
    (acc.any fun q => q.id == p.id) = (acc.map Policy.id).contains p.id := by
  rw [Bool.eq_iff_iff]
  simp [List.any_eq_true]

theorem insertPolicy_map_id (acc : List Policy) (p : Policy) :
    (insertPolicy acc p).map Policy.id =
      if (acc.map Policy.id).contains p.id then acc.map Policy.id
      else acc.map Policy.id ++ [p.id] := by
  unfold insertPolicy
  rw [← any_id_eq_contains]
  by_cases h : (acc.any fun q => q.id == p.id) = true
  · rw [if_pos h, if_pos h, List.map_map]
    refine List.map_congr_left fun q _ => ?_
    by_cases hqp : (q.id == p.id) = true
    · simp only [Function.comp_apply, if_pos hqp]
      exact (eq_of_beq hqp).symm
    · simp only [Function.comp_apply, if_neg hqp]
  · rw [if_neg h, if_neg h, List.map_append]
    rfl

theorem dedup_foldl_map_id (ps : List Policy) (acc : List Policy) :
    (List.foldl insertPolicy acc ps).map Policy.id =
      List.foldl (fun ids p => if ids.contains p.id then ids else ids ++ [p.id])
        (acc.map Policy.id) ps := by
  induction ps generalizing acc with
  | nil => simp
  | cons p ps ih =>
    rw [List.foldl_cons, List.foldl_cons, ih, insertPolicy_map_id]

theorem dedupPolicies_map_id (ps : List Policy) :
    (dedupPolicies ps).map Policy.id = firstOccIds ps := by
  unfold dedupPolicies firstOccIds
  simpa using dedup_foldl_map_id ps []

theorem firstOcc_foldl_nodup (ps : List Policy) (acc : List String)
    (h : acc.Nodup) :
    (List.foldl (fun ids p => if ids.contains p.id then ids else ids ++ [p.id])
      acc ps).Nodup := by
  induction ps generalizing acc with
  | nil => simpa
  | cons p ps ih =>
    rw [List.foldl_cons]
    apply ih
    split
    · exact h
    · next hc =>
      have hmem : p.id ∉ acc := by simpa using hc
      simp [List.nodup_append, h, hmem]

theorem firstOccIds_nodup (ps : List Policy) : (firstOccIds ps).Nodup :=
  firstOcc_foldl_nodup ps [] List.nodup_nil

theorem condCheck_lift (ops : String → Option OperatorFn) (ctx : Ctx)
    (c : Condition) :
    condCheck (fun n => (ops n).map liftSync) ctx c =
      condEvaluatesTrue ops ctx c := by
  unfold condCheck condEvaluatesTrue
  cases h : ops c.operator <;> simp [h, liftSync, OpResult.truthy]

/-! Claim theorems. -/

/-- C1: evaluation is first-match-wins.  If the deduplicated policy sequence
splits as `pre ++ p :: post` where no statement of `pre` matches and `s` is
the first matching statement of `p`, then the decision is determined by the
effect of `s` with reason naming `p`, and the checked-policy trace ends at
`p.id` — the policies of `post` are never inspected. -/
theorem claim_C1_first_match_wins (ops : OpMap) (user : User) (a r : String)
    (ctx : Ctx) (roles : List Role) (policies pre post : List Policy)
    (p : Policy) (s : Statement)
    (hsplit : dedupPolicies policies = pre ++ p :: post)
    (hpre : ∀ q ∈ pre, q.statements.find? (stmtMatches ops a r ctx) = none)
    (hp : p.statements.find? (stmtMatches ops a r ctx) = some s) :
    defaultPolicyEvaluator user a r ctx policies roles ops =
      if s.effect = Effect.allow then
        ⟨true, ⟨pre.map Policy.id ++ [p.id], "Allowed by policy " ++ p.id⟩, ctx⟩
      else
        ⟨false, ⟨pre.map Policy.id ++ [p.id], "Denied by policy " ++ p.id⟩, ctx⟩ := by
  unfold defaultPolicyEvaluator
  rw [hsplit, evalPolicies_skip ops a r ctx pre (p :: post) [] hpre]
  simp only [evalPolicies, hp, List.nil_append]
  cases s.effect <;> simp

/-- Witness for C1 at a concrete input: three policies, the second holds the
first matching statement (an Allow), the third (a Deny on the same request)
is not inspected. -/
theorem claim_C1_first_match_wins_witness :
    defaultPolicyEvaluator uW "read" "doc:1" [] [pW0, pW1, pW2] [] opsNone =
      ⟨true, ⟨["p0", "p1"], "Allowed by policy p1"⟩, []⟩ := by
  have h := claim_C1_first_match_wins opsNone uW "read" "doc:1" [] []
      [pW0, pW1, pW2] [pW0] [pW2] pW1 ⟨.allow, ["read"], ["doc:1"], none⟩
      (by rfl)
      (by intro q hq; rw [List.mem_singleton] at hq; subst hq; rfl)
      (by rfl)
  simpa [pW0, pW1] using h

/-- C5: deny-by-default.  When no statement of the resolved policy sequence
matches the request, the decision is a deny with reason "No matching
policy", with every resolved policy id in the trace. -/
theorem claim_C5_deny_by_default (ops : OpMap) (user : User) (a r : String)
    (ctx : Ctx) (roles : List Role) (policies : List Policy)
    (h : ∀ p ∈ dedupPolicies policies, ∀ s ∈ p.statements,
        stmtMatches ops a r ctx s = false) :
    defaultPolicyEvaluator user a r ctx policies roles ops =
      ⟨false, ⟨(dedupPolicies policies).map Policy.id, "No matching policy"⟩,
        ctx⟩ := by
  unfold defaultPolicyEvaluator
  have hnone : ∀ q ∈ dedupPolicies policies,
      q.statements.find? (stmtMatches ops a r ctx) = none := by
    intro q hq
    rw [List.find?_eq_none]
    intro s hs
    simp [h q hq s hs]
  have hskip := evalPolicies_skip ops a r ctx (dedupPolicies policies) [] [] hnone
  rw [List.append_nil] at hskip
  rw [hskip]
  simp [evalPolicies]

/-- Witness for C5 at a concrete input: one policy whose only statement
names a different resource. -/
theorem claim_C5_deny_by_default_witness :
    defaultPolicyEvaluator uW "read" "doc:2" [] [pW0] [] opsNone =
      ⟨false, ⟨["p0"], "No matching policy"⟩, []⟩ := by
  have h := claim_C5_deny_by_default opsNone uW "read" "doc:2" [] [] [pW0]
      (by
        intro p hp s hs
        rw [show dedupPolicies [pW0] = [pW0] from rfl, List.mem_singleton] at hp
        subst hp
        rw [show pW0.statements = [⟨.allow, ["write"], ["doc:1"], none⟩] from rfl,
          List.mem_singleton] at hs
        subst hs
        rfl)
  simpa [pW0] using h

/-- C3: a statement matches iff the action is a member of its actions, the
resource is a member of its resources, and every condition evaluates true
via the operator mapping (no conditions: trivially true; an unregistered
operator name evaluates false, so its statement never matches; one false
condition among several prevents the match).  Stated for boolean-valued
operator mappings, which the default registry is. -/
theorem claim_C3_statement_match_iff (ops : String → Option OperatorFn)
    (a r : String) (ctx : Ctx) (stmt : Statement) :
    stmtMatches (fun n => (ops n).map liftSync) a r ctx stmt = true ↔
      (a ∈ stmt.actions ∧ r ∈ stmt.resources ∧
        ∀ cs, stmt.conditions = some cs →
          ∀ c ∈ cs, condEvaluatesTrue ops ctx c = true) := by
  unfold stmtMatches
  cases hc : stmt.conditions with
  | none => simp [hc]
  | some cs => simp [hc, List.all_eq_true, condCheck_lift, and_assoc]

/-- C9: the default condition operators are total by construction in this
embedding (each is a boolean-valued Lean function), and they resolve type
mismatches to false: the numeric comparators return false when either
operand is not a number, `in` returns false when the comparand is not an
array, `contains` returns false when the context value is neither a string
nor an array, and `regex` returns false for an invalid pattern string or a
non-string context value. -/
theorem applyDefaultOp_gt (rs : RegexSem) (k : String) (v : JSValue)
    (ctx : Ctx) :
    applyDefaultOp rs "gt" k v ctx =
      (match ctxGet ctx k, v with
       | .num a, .num b => a > b
       | _, _ => false) := rfl

theorem applyDefaultOp_lt (rs : RegexSem) (k : String) (v : JSValue)
    (ctx : Ctx) :
    applyDefaultOp rs "lt" k v ctx =
      (match ctxGet ctx k, v with
       | .num a, .num b => a < b
       | _, _ => false) := rfl

theorem applyDefaultOp_gte (rs : RegexSem) (k : String) (v : JSValue)
    (ctx : Ctx) :
    applyDefaultOp rs "gte" k v ctx =
      (match ctxGet ctx k, v with
       | .num a, .num b => a ≥ b
       | _, _ => false) := rfl

theorem applyDefaultOp_lte (rs : RegexSem) (k : String) (v : JSValue)
    (ctx : Ctx) :
    applyDefaultOp rs "lte" k v ctx =
      (match ctxGet ctx k, v with
       | .num a, .num b => a ≤ b
       | _, _ => false) := rfl

theorem applyDefaultOp_in (rs : RegexSem) (k : String) (v : JSValue)
    (ctx : Ctx) :
    applyDefaultOp rs "in" k v ctx =
      (match v with
       | .arr l => l.any (fun e => jsEq e (ctxGet ctx k))
       | _ => false) := rfl

theorem applyDefaultOp_contains (rs : RegexSem) (k : String) (v : JSValue)
    (ctx : Ctx) :
    applyDefaultOp rs "contains" k v ctx =
      (match ctxGet ctx k with
       | .str s => jsStrIncludes s (jsToString v)
       | .arr l => l.any (fun e => jsEq e v)
       | _ => false) := rfl

theorem applyDefaultOp_regex (rs : RegexSem) (k : String) (v : JSValue)
    (ctx : Ctx) :
    applyDefaultOp rs "regex" k v ctx =
      (match v with
       | .str pat =>
         if rs.valid pat then
           match ctxGet ctx k with
           | .str s => rs.test pat s
           | _ => false
         else false
       | .regexp pat =>
         match ctxGet ctx k with
         | .str s => rs.test pat s
         | _ => false
       | _ => false) := rfl

theorem claim_C9_default_operators_total (rs : RegexSem) (k : String)
    (v : JSValue) (ctx : Ctx) :
    (((ctxGet ctx k).isNum && v.isNum) = false →
      applyDefaultOp rs "gt" k v ctx = false ∧
      applyDefaultOp rs "lt" k v ctx = false ∧
      applyDefaultOp rs "gte" k v ctx = false ∧
      applyDefaultOp rs "lte" k v ctx = false) ∧
    (v.isArr = false → applyDefaultOp rs "in" k v ctx = false) ∧
    (((ctxGet ctx k).isStr || (ctxGet ctx k).isArr) = false →
      applyDefaultOp rs "contains" k v ctx = false) ∧
    (∀ pat, v = JSValue.str pat → rs.valid pat = false →
      applyDefaultOp rs "regex" k v ctx = false) ∧
    ((ctxGet ctx k).isStr = false → applyDefaultOp rs "regex" k v ctx = false) := by
  refine ⟨?_, ?_, ?_, ?_, ?_⟩
  · intro h
    rw [applyDefaultOp_gt, applyDefaultOp_lt, applyDefaultOp_gte,
      applyDefaultOp_lte]
    cases hg : ctxGet ctx k <;> cases v <;> simp_all [JSValue.isNum]
  · intro h
    rw [applyDefaultOp_in]
    cases v <;> simp_all [JSValue.isArr]
  · intro h
    rw [applyDefaultOp_contains]
    cases hg : ctxGet ctx k <;> simp_all [JSValue.isStr, JSValue.isArr]
  · intro pat hv hval
    subst hv
    rw [applyDefaultOp_regex]
    simp [hval]
  · intro h
    rw [applyDefaultOp_regex]
    cases v <;> cases hg : ctxGet ctx k <;> simp_all [JSValue.isStr]

/-- Witness for C9 at concrete inputs: a string comparand and an absent
(undefined) context key make every guarded operator return false. -/
theorem claim_C9_default_operators_total_witness :
    applyDefaultOp rs0 "gt" "k" (JSValue.str "x") [] = false ∧
    applyDefaultOp rs0 "in" "k" (JSValue.str "x") [] = false ∧
    applyDefaultOp rs0 "contains" "k" (JSValue.str "x") [] = false ∧
    applyDefaultOp rs0 "regex" "k" (JSValue.str "x") [] = false := by
  have h := claim_C9_default_operators_total rs0 "k" (JSValue.str "x") []
  exact ⟨(h.1 (by rfl)).1, h.2.1 (by rfl), h.2.2.1 (by rfl),
    h.2.2.2.1 "x" rfl (by rfl)⟩

/-- C10: condition evaluation inside the engine consults a fresh copy of the
built-in default operator table only (wrapped when `onConditionCheck` is
installed): the domain of the mapping in use is exactly the set of default
names, and an operator registered on a `ConditionOperatorRegistry` under a
non-default name is never consulted — a condition naming it evaluates
false regardless of the registration. -/
theorem claim_C10_registry_not_consulted (rs : RegexSem) (hookOn : Bool)
    (r : ConditionOperatorRegistry) (name : String) (fn : OperatorFn)
    (k : String) (v : JSValue) (ctx : Ctx)
    (hreg : r.get name = some fn)
    (hdef : defaultConditionOperators rs name = none) :
    engineOperators rs hookOn name = none ∧
    condCheck (engineOperators rs hookOn) ctx ⟨name, k, v⟩ = false ∧
    (∀ n, engineOperators rs false n =
      (defaultConditionOperators rs n).map liftSync) := by
  refine ⟨?_, ?_, ?_⟩
  · simp [engineOperators, hdef]
  · simp [condCheck, engineOperators, hdef]
  · intro n
    simp [engineOperators]

/-- Witness for C10 at a concrete input: a registry holding an operator
"myOp" that always returns true, while a condition naming "myOp" still
evaluates false in the engine's operator mapping. -/
theorem claim_C10_registry_not_consulted_witness :
    ConditionOperatorRegistry.get ⟨[("myOp", fun _ _ _ => true)]⟩ "myOp" =
      some (fun _ _ _ => true) ∧
    condCheck (engineOperators rs0 false) [] ⟨"myOp", "k", JSValue.undefined⟩ =
      false := by
  refine ⟨rfl, ?_⟩
  exact (claim_C10_registry_not_consulted rs0 false
    ⟨[("myOp", fun _ _ _ => true)]⟩ "myOp" (fun _ _ _ => true) "k"
    JSValue.undefined [] rfl rfl).2.1

theorem any_isNone_map_some (l : List α) :
    ((l.map some).any fun o => o.isNone) = false := by
  induction l with
  | nil => rfl
  | cons x xs ih => simp [ih]

theorem filterMap_id_map_some (l : List α) : (l.map some).filterMap id = l := by
  induction l with
  | nil => rfl
  | cons x xs ih => simp [ih]

/-- With the in-memory adapter and no hooks installed, one `can` call is
exactly the default evaluator applied to the assembled policy list. -/
theorem canCore_inMemory_noHooks (rs : RegexSem) (roles : List Role)
    (policies : List Policy) (user : User) (a r : String) (ctx : Ctx) :
    canCore rs (some (InMemoryAdapter roles policies)) noHooks user a r
        (some ctx) =
      { result := .ok (defaultPolicyEvaluator user a r ctx
          (resolvedPolicies roles policies user)
          (user.roleIds.filterMap (fun i => mapGetById i Role.id roles))
          (engineOperators rs false))
        events := [] } := by
  simp [canCore, tryPhase, hookCall, noHooks, InMemoryAdapter,
    HookSpec.installed, any_isNone_map_some, filterMap_id_map_some,
    resolvedPolicies]

/-- C4: with the in-memory adapter, the engine evaluates exactly the policy
sequence assembled from the subject's direct policies (stored order) and
then each referenced role's policies (stored order), deduplicated by id
keeping the first occurrence; hence the checked-policy trace is an initial
segment of the first-occurrence id sequence and contains no id twice. -/
theorem claim_C4_resolution_order_dedup (rs : RegexSem) (roles : List Role)
    (policies : List Policy) (user : User) (a r : String) (ctx : Ctx) :
    ∃ d, (canCore rs (some (InMemoryAdapter roles policies)) noHooks user a r
        (some ctx)).result = .ok d ∧
      d = defaultPolicyEvaluator user a r ctx
        (resolvedPolicies roles policies user)
        (user.roleIds.filterMap (fun i => mapGetById i Role.id roles))
        (engineOperators rs false) ∧
      d.trace.checkedPolicies.Nodup ∧
      ∃ n, d.trace.checkedPolicies =
        (firstOccIds (resolvedPolicies roles policies user)).take n := by
  obtain ⟨n, hn⟩ := evalPolicies_checked_take (engineOperators rs false) a r ctx
    (dedupPolicies (resolvedPolicies roles policies user)) []
  rw [List.nil_append, dedupPolicies_map_id] at hn
  have hd : (defaultPolicyEvaluator user a r ctx
      (resolvedPolicies roles policies user)
      (user.roleIds.filterMap (fun i => mapGetById i Role.id roles))
      (engineOperators rs false)).trace.checkedPolicies =
      (firstOccIds (resolvedPolicies roles policies user)).take n := by
    unfold defaultPolicyEvaluator
    exact hn
  refine ⟨_, by rw [canCore_inMemory_noHooks], rfl, ?_, ⟨n, hd⟩⟩
  rw [hd]
  exact (List.take_sublist n _).nodup
    (firstOccIds_nodup (resolvedPolicies roles policies user))

/-- C6: the engine is fail-closed on storage failure.  For any non-throwing
hook configuration: without a storage collaborator the call returns (does
not throw) a deny whose reason is the error message "No storage adapter
configured", which contains "storage"; with a storage collaborator that
rejects with `msg`, the call returns a deny whose reason is `msg`. -/
theorem claim_C6_fail_closed_storage (rs : RegexSem) (hooks : Hooks)
    (user : User) (a r : String) (ctxOpt : Option Ctx) (msg : String)
    (hnt : hooks.nonThrowing = true) :
    (canCore rs none hooks user a r ctxOpt).result =
      .ok ⟨false, ⟨[], "No storage adapter configured"⟩, ctxOpt.getD []⟩ ∧
    jsStrIncludes "No storage adapter configured" "storage" = true ∧
    (canCore rs (some (failingStorage msg)) hooks user a r ctxOpt).result =
      .ok ⟨false, ⟨[], msg⟩, ctxOpt.getD []⟩ := by
  obtain ⟨hb, ha, hc, hs, hr, hd, he⟩ := hooks
  simp only [Hooks.nonThrowing, Bool.and_eq_true, Option.isNone_iff_eq_none] at hnt
  obtain ⟨⟨⟨⟨⟨⟨hb1, ha1⟩, hc1⟩, hs1⟩, hr1⟩, hd1⟩, he1⟩ := hnt
  refine ⟨?_, by rfl, ?_⟩ <;>
  · cases hb <;> cases hs <;> cases he <;>
      simp_all [canCore, tryPhase, hookCall, failingStorage, HookSpec.throwsMsg]

/-- Witness for C6 at a concrete input: no hooks, no storage, and a storage
that rejects with "db down". -/
theorem claim_C6_fail_closed_storage_witness :
    (canCore rs0 none noHooks uW "read" "doc:1" none).result =
      .ok ⟨false, ⟨[], "No storage adapter configured"⟩, []⟩ ∧
    (canCore rs0 (some (failingStorage "db down")) noHooks uW "read" "doc:1"
        none).result = .ok ⟨false, ⟨[], "db down"⟩, []⟩ := by
  have h := claim_C6_fail_closed_storage rs0 noHooks uW "read" "doc:1" none
    "db down" (by rfl)
  exact ⟨h.1, h.2.2⟩

/-- C7 (code bug): a throwing `onError` hook propagates out of the catch
block, so the call rejects with the hook's error instead of returning a
Decision — here a call on an engine without storage, whose `onError`
throws "boom", rejects with "boom". -/
theorem claim_C7_throwing_onerror_propagates :
    (canCore rs0 none hooksErrThrow uW "read" "doc:1" none).result =
      .error "boom" := rfl

/-- C2 (code bug): installing the `onConditionCheck` hook changes the
outcome.  The only statement of `pC2` requires `owner = alice`; with
context `owner = bob` the engine denies without hooks, but grants with the
hook installed, because the async-wrapped operator returns a pending
Promise, which is truthy in the unawaited condition check. -/
theorem claim_C2_oncondcheck_changes_outcome :
    (canCore rs0 (some (InMemoryAdapter [] [pC2])) noHooks uC2 "read" "doc"
        (some ctxC2)).result =
      .ok ⟨false, ⟨["p1"], "No matching policy"⟩, ctxC2⟩ ∧
    (canCore rs0 (some (InMemoryAdapter [] [pC2])) hooksCondCheck uC2 "read"
        "doc" (some ctxC2)).result =
      .ok ⟨true, ⟨["p1"], "Allowed by policy p1"⟩, ctxC2⟩ := ⟨rfl, rfl⟩

/-- C8 (code bug): with the in-memory adapter, a partially resolvable role
list produces no `onRoleNotFound` notification at all — the missing id
"rX" is never reported — while a fully unresolvable list is reported with
one call per referenced id. -/
theorem claim_C8_partial_role_not_reported :
    ((canCore rs0 (some (InMemoryAdapter [roleR1] [])) hooksRoleNF
        uPartialRoles "read" "doc:1" none).events.filter
      HookEvent.isRoleNotFound = []) ∧
    ((canCore rs0 (some (InMemoryAdapter [] [])) hooksRoleNF uPartialRoles
        "read" "doc:1" none).events.filter HookEvent.isRoleNotFound =
      [.roleNotFound (some "r1"), .roleNotFound (some "rX")]) := ⟨rfl, rfl⟩
